import Mathlib

/-!
Verification of the `se_lab` repository: two single-page applications,
a todo-list manager (`src/Todo-Lsit/app/page.tsx`, with a second variant in
`src/app/page.tsx`) and a personal wallet manager (`src/unnamed/part_000`).

The shallow embedding below translates the non-presentational logic of the
two React components into pure Lean functions.  React `useState` state is
made explicit as record types (`TodoState`, `WalletState`, `ImportState`);
each event handler becomes a state-transition function.  JavaScript numbers
are modelled as exact rationals (`ℚ`); `Date.now()` and
`new Date().toLocaleString()` are environmental inputs and are passed as
explicit parameters.  `JSON.parse` results are modelled by the `Json`
inductive, with `none : Option Json` standing for a parse failure.
-/

namespace SeLab

/-- `Category` union type, shared by both apps (part_000 line 18,
Todo page.tsx line 5). -/
inductive Category where
  | Work
  | Personal
  | Shopping
  | Others
  | Home
deriving DecidableEq, Repr

/-- `Priority` union type (Todo page.tsx line 6). -/
inductive Priority where
  | Critical
  | High
  | Medium
  | Low
deriving DecidableEq, Repr

/-- `TransactionType` union type (part_000 line 19). -/
inductive TransactionType where
  | income
  | expense
deriving DecidableEq, Repr

/-- The `Task` interface (Todo page.tsx lines 8-15). -/
structure Task where
  id : Nat
  text : String
  completed : Bool
  createdAt : String
  category : Category
  priority : Priority
deriving DecidableEq, Repr

/-- The `Transaction` interface (part_000 lines 21-28).  `amount : ℚ`
models the JavaScript number exactly. -/
structure Transaction where
  id : Nat
  amount : ℚ
  type : TransactionType
  description : String
  category : Category
  createdAt : String
deriving DecidableEq, Repr

/-! ## Todo-list store -/

/-- The mutable view state of the todo app that the store operations touch:
the `tasks` array and `selectedTaskId` (Todo page.tsx lines 18-20). -/
structure TodoState where
  tasks : List Task
  selectedTaskId : Option Nat
deriving DecidableEq, Repr

/-- `getPriorityOrder` (Todo page.tsx lines 43-56).  The `default` arm
returning 4 is unreachable because `Priority` has exactly four values. -/
def getPriorityOrder : Priority → Nat
  | .Critical => 0
  | .High => 1
  | .Medium => 2
  | .Low => 3

/-- The comparator passed to `Array.prototype.sort` in `sortTasksByPriority`
(Todo page.tsx lines 59-61): `getPriorityOrder(a) - getPriorityOrder(b)`,
i.e. `a` sorts no later than `b` iff `rank a ≤ rank b`. -/
def taskLE (a b : Task) : Bool :=
  getPriorityOrder a.priority ≤ getPriorityOrder b.priority

/-- `sortTasksByPriority` (Todo page.tsx lines 58-63).  ECMAScript requires
`Array.prototype.sort` to be stable, so it is embedded as a stable merge
sort with the comparator's induced order. -/
def sortTasksByPriority (tasks : List Task) : List Task :=
  tasks.mergeSort taskLE

/-- `text.toLowerCase().includes(searchTerm.toLowerCase())`
(Todo page.tsx lines 67-69, part_000 lines 57-59). -/
def matchesSearch (text searchTerm : String) : Bool :=
  decide (searchTerm.toLower.toList <:+: text.toLower.toList)

/-- `getFilteredTasks` (Todo page.tsx lines 65-77).  The `'All'` filter
option is modelled by `none`. -/
def getFilteredTasks (tasks : List Task) (searchTerm : String)
    (filterCategory : Option Category) (filterPriority : Option Priority) :
    List Task :=
  tasks.filter fun task =>
    matchesSearch task.text searchTerm &&
    (match filterCategory with
     | none => true
     | some c => task.category = c) &&
    (match filterPriority with
     | none => true
     | some p => task.priority = p)

/-- `add_task` (Todo page.tsx lines 108-121).  `now` is the value of
`Date.now()` and `createdAt` the formatted `new Date().toLocaleString()`,
both environmental inputs. -/
def add_task (s : TodoState) (newTask : String) (category : Category)
    (priority : Priority) (now : Nat) (createdAt : String) : TodoState :=
  if newTask.trim ≠ "" then
    { s with tasks := s.tasks ++
        [{ id := now, text := newTask.trim, completed := false,
           createdAt := createdAt, category := category,
           priority := priority }] }
  else s

/-- `delete_task` (Todo page.tsx lines 123-128). -/
def delete_task (s : TodoState) : TodoState :=
  match s.selectedTaskId with
  | some i =>
      { tasks := s.tasks.filter fun task => task.id ≠ i,
        selectedTaskId := none }
  | none => s

/-- `clear_task` (Todo page.tsx lines 130-133). -/
def clear_task (_ : TodoState) : TodoState :=
  { tasks := [], selectedTaskId := none }

/-- `mark_done` (Todo page.tsx lines 135-145, identical in
src/app/page.tsx lines 676-686). -/
def mark_done (s : TodoState) : TodoState :=
  match s.selectedTaskId with
  | some i =>
      { s with tasks := s.tasks.map fun task =>
          if task.id = i then { task with completed := !task.completed }
          else task }
  | none => s

/-! ## Wallet store -/

/-- The wallet view state touched by the store operations
(part_000 lines 31-36). -/
structure WalletState where
  transactions : List Transaction
  selectedTransactionId : Option Nat
deriving DecidableEq, Repr

/-- `getFilteredTransactions` (part_000 lines 55-67). -/
def getFilteredTransactions (transactions : List Transaction)
    (searchTerm : String) (filterCategory : Option Category)
    (filterType : Option TransactionType) : List Transaction :=
  transactions.filter fun transaction =>
    matchesSearch transaction.description searchTerm &&
    (match filterCategory with
     | none => true
     | some c => transaction.category = c) &&
    (match filterType with
     | none => true
     | some ty => transaction.type = ty)

/-- JavaScript `Math.max` on two (non-NaN) numbers. -/
def mathMax (a b : ℚ) : ℚ := if a ≤ b then b else a

/-- JavaScript `Math.min` on two (non-NaN) numbers. -/
def mathMin (a b : ℚ) : ℚ := if a ≤ b then a else b

/-- `getCurrentBalance` (part_000 lines 69-75): a single left fold adding
income amounts and subtracting expense amounts. -/
def getCurrentBalance (transactions : List Transaction) : ℚ :=
  transactions.foldl
    (fun balance transaction =>
      if transaction.type = .income then balance + transaction.amount
      else balance - transaction.amount)
    0

/-- `totalIncome` inside `getAnalyticsData` (part_000 lines 79-81). -/
def totalIncome (transactions : List Transaction) : ℚ :=
  (transactions.filter fun t => t.type = .income).foldl
    (fun sum t => sum + t.amount) 0

/-- `totalExpenses` inside `getAnalyticsData` (part_000 lines 83-85). -/
def totalExpenses (transactions : List Transaction) : ℚ :=
  (transactions.filter fun t => t.type = .expense).foldl
    (fun sum t => sum + t.amount) 0

/-- `netSavings` inside `getAnalyticsData` (part_000 line 87). -/
def netSavings (transactions : List Transaction) : ℚ :=
  totalIncome transactions - totalExpenses transactions

/-- `largestExpense` inside `getAnalyticsData` (part_000 lines 94-100):
`Math.max(...expenseTransactions.map(t => t.amount))` when the filtered
list is non-empty (a left fold of binary `max` over the amounts), else 0. -/
def largestExpense (transactions : List Transaction) : ℚ :=
  match (transactions.filter fun t => t.type = .expense).map
      (fun t => t.amount) with
  | [] => 0
  | a :: rest => rest.foldl mathMax a

/-- The reducer step inside `getCategoryDistribution` (part_000 lines
115-119): `acc[category] = (acc[category] || 0) + transaction.amount`,
modelled on an insertion-ordered association list exactly as a JS object
with enum keys behaves under `Object.entries`. -/
def accStep (acc : List (Category × ℚ)) (t : Transaction) :
    List (Category × ℚ) :=
  if acc.any fun p => p.1 = t.category then
    acc.map fun p =>
      if p.1 = t.category then (p.1, p.2 + t.amount) else p
  else acc ++ [(t.category, t.amount)]

/-- `getCategoryDistribution` (part_000 lines 112-126), keeping the
`(name, value)` pairs and dropping the presentational `color` field. -/
def getCategoryDistribution (transactions : List Transaction) :
    List (Category × ℚ) :=
  (transactions.filter fun t => t.type = .expense).foldl accStep []

/-- First-match association lookup, the semantics of reading `acc[c]`
from the distribution built above (keys are unique by construction). -/
def lookupCat (c : Category) : List (Category × ℚ) → Option ℚ
  | [] => none
  | p :: rest => if p.1 = c then some p.2 else lookupCat c rest

/-- The record returned by `getBudgetData` (part_000 lines 175-180). -/
structure BudgetData where
  budget : ℚ
  spent : ℚ
  remaining : ℚ
  percentageSpent : ℚ
deriving DecidableEq, Repr

/-- `getBudgetData` (part_000 lines 167-181). -/
def getBudgetData (budget : ℚ) (transactions : List Transaction) :
    BudgetData :=
  let totalSpent :=
    (transactions.filter fun t => t.type = .expense).foldl
      (fun sum t => sum + t.amount) 0
  let remaining := budget - totalSpent
  let percentageSpent := if budget > 0 then totalSpent / budget * 100 else 0
  { budget := budget, spent := totalSpent,
    remaining := mathMax 0 remaining,
    percentageSpent := mathMin 100 percentageSpent }

/-- The budget notice rendering (part_000 lines 814-820): when
`percentageSpent >= 100` the message shows
`(getBudgetData().percentageSpent - 100)` as the exceeded-by percentage
(note: computed from the already-clamped `percentageSpent`); otherwise no
exceeded-by percentage is shown. -/
def budgetNoticeExceededBy (budget : ℚ) (transactions : List Transaction) :
    Option ℚ :=
  if (getBudgetData budget transactions).percentageSpent ≥ 100 then
    some ((getBudgetData budget transactions).percentageSpent - 100)
  else none

/-- `addTransaction`'s raw inputs (part_000 lines 183-203): the `amount`
text field together with its `parseFloat` result (`none` for `NaN`;
`parseFloat` is a JS builtin, so its numeric result is taken as an input),
plus description, type and category. -/
structure WalletAddInput where
  amountStr : String
  amountNum : Option ℚ
  description : String
  type : TransactionType
  category : Category
deriving DecidableEq, Repr

/-- The validation guard of `addTransaction` (part_000 lines 185-190):
`amount.trim() !== '' && !isNaN(numAmount) && numAmount > 0 &&
description.trim() !== ''`. -/
def walletValid (inp : WalletAddInput) : Bool :=
  inp.amountStr.trim ≠ "" &&
  (match inp.amountNum with
   | some a => decide (0 < a)
   | none => false) &&
  inp.description.trim ≠ ""

/-- `addTransaction` (part_000 lines 183-203). -/
def addTransaction (s : WalletState) (inp : WalletAddInput) (now : Nat)
    (createdAt : String) : WalletState :=
  if walletValid inp then
    { s with transactions := s.transactions ++
        [{ id := now, amount := inp.amountNum.getD 0, type := inp.type,
           description := inp.description.trim, category := inp.category,
           createdAt := createdAt }] }
  else s

/-- `deleteTransaction` (part_000 lines 205-214). -/
def deleteTransaction (s : WalletState) : WalletState :=
  match s.selectedTransactionId with
  | some i =>
      { transactions := s.transactions.filter fun t => t.id ≠ i,
        selectedTransactionId := none }
  | none => s

/-! ## JSON model, export and import -/

/-- JSON values, the result of `JSON.parse` (object field order is the
source/insertion order, as in JavaScript). -/
inductive Json where
  | null
  | bool (b : Bool)
  | num (q : ℚ)
  | str (s : String)
  | arr (elems : List Json)
  | obj (fields : List (String × Json))

/-- Property read `v[key]`: `some` for an object with that key, otherwise
the access yields `undefined` (or throws on `null`, which the surrounding
`try/catch` turns into the same rejection), modelled as `none`. -/
def Json.getField : Json → String → Option Json
  | .obj fields, key =>
      match fields.find? (fun p => p.1 = key) with
      | some p => some p.2
      | none => none
  | _, _ => none

/-- `task.hasOwnProperty(key)` (Todo page.tsx lines 180-184): true exactly
for an object carrying the key; primitives own no properties. -/
def Json.hasKey (j : Json) (key : String) : Bool :=
  match j with
  | .obj fields => fields.any fun p => p.1 = key
  | _ => false

/-- The presence-only element check inside `handleFileImport`
(Todo page.tsx lines 178-185). -/
def validTaskJson (task : Json) : Bool :=
  task.hasKey "id" && task.hasKey "text" && task.hasKey "completed" &&
  task.hasKey "category" && task.hasKey "priority"

/-- The store state seen by the import path: the raw runtime objects
(`setTasks(data.tasks)` stores the decoded JSON values without any
conversion), plus the selection. -/
structure ImportState where
  tasks : List Json
  selectedTaskId : Option Nat

/-- `handleFileImport`'s reader callback (Todo page.tsx lines 172-202).
`content = none` models a `JSON.parse` failure (the `catch` branch).
The returned `Bool` is true when an error alert is surfaced and the store
is left untouched; `data.tasks && Array.isArray(data.tasks)` holds exactly
when the `tasks` field is present and an array (arrays are always truthy).
-/
def handleFileImport (s : ImportState) (content : Option Json) :
    ImportState × Bool :=
  match content with
  | none => (s, true)
  | some data =>
      match data.getField "tasks" with
      | some (.arr ts) =>
          if ts.all validTaskJson then
            ({ tasks := ts, selectedTaskId := none }, false)
          else (s, true)
      | _ => (s, true)

/-- Category names as serialized by `JSON.stringify`. -/
def categoryToString : Category → String
  | .Work => "Work"
  | .Personal => "Personal"
  | .Shopping => "Shopping"
  | .Others => "Others"
  | .Home => "Home"

/-- Priority names as serialized by `JSON.stringify`. -/
def priorityToString : Priority → String
  | .Critical => "Critical"
  | .High => "High"
  | .Medium => "Medium"
  | .Low => "Low"

/-- Serialization of one task by `JSON.stringify` inside `saveTasksToFile`
(Todo page.tsx lines 147-154); key order is the property-creation order of
`add_task` (lines 110-117). -/
def taskToJson (t : Task) : Json :=
  .obj [("id", .num (t.id : ℚ)), ("text", .str t.text),
        ("completed", .bool t.completed), ("createdAt", .str t.createdAt),
        ("category", .str (categoryToString t.category)),
        ("priority", .str (priorityToString t.priority))]

/-- The whole exported document `{ tasks, exportDate, version: '1.0' }`
(Todo page.tsx lines 148-152); `exportDate` is the environmental
`new Date().toISOString()`. -/
def exportJson (tasks : List Task) (exportDate : String) : Json :=
  .obj [("tasks", .arr (tasks.map taskToJson)),
        ("exportDate", .str exportDate), ("version", .str "1.0")]

/-- Reading a serialized rational back as the `Nat` id it came from. -/
def numToNat (q : ℚ) : Option Nat :=
  if q.den = 1 ∧ 0 ≤ q.num then some q.num.toNat else none

/-- Inverse of `categoryToString`. -/
def stringToCategory (s : String) : Option Category :=
  if s = "Work" then some .Work
  else if s = "Personal" then some .Personal
  else if s = "Shopping" then some .Shopping
  else if s = "Others" then some .Others
  else if s = "Home" then some .Home
  else none

/-- Inverse of `priorityToString`. -/
def stringToPriority (s : String) : Option Priority :=
  if s = "Critical" then some .Critical
  else if s = "High" then some .High
  else if s = "Medium" then some .Medium
  else if s = "Low" then some .Low
  else none

/-- How the rest of the todo app reads an imported runtime object back as a
`Task`: one property read per `Task` field.  Used to state that the
imported collection preserves every field value of the exported one. -/
def jsonToTask (j : Json) : Option Task :=
  match j.getField "id", j.getField "text", j.getField "completed",
      j.getField "createdAt", j.getField "category",
      j.getField "priority" with
  | some (.num i), some (.str tx), some (.bool c), some (.str ca),
    some (.str cat), some (.str pr) =>
      match numToNat i, stringToCategory cat, stringToPriority pr with
      | some n, some catV, some prV =>
          some { id := n, text := tx, completed := c, createdAt := ca,
                 category := catV, priority := prV }
      | _, _, _ => none
  | _, _, _, _, _, _ => none

/-! ## Sequences of add operations -/

/-- One user attempt at `add_task`: the form inputs together with the
environmental `Date.now()` / formatted timestamp at the moment of the
click. -/
structure TodoAddStep where
  newTask : String
  category : Category
  priority : Priority
  now : Nat
  createdAt : String
deriving DecidableEq, Repr

/-- The validation guard of `add_task` (Todo page.tsx line 109). -/
def todoStepValid (st : TodoAddStep) : Bool :=
  st.newTask.trim ≠ ""

/-- Running a sequence of `add_task` attempts left to right. -/
def runTodoAdds (s : TodoState) (steps : List TodoAddStep) : TodoState :=
  steps.foldl
    (fun s st => add_task s st.newTask st.category st.priority st.now
      st.createdAt) s

/-- One user attempt at `addTransaction`. -/
structure WalletAddStep where
  input : WalletAddInput
  now : Nat
  createdAt : String
deriving DecidableEq, Repr

/-- Running a sequence of `addTransaction` attempts left to right. -/
def runWalletAdds (s : WalletState) (steps : List WalletAddStep) :
    WalletState :=
  steps.foldl (fun s st => addTransaction s st.input st.now st.createdAt) s

/-! ## Concrete fixtures used in closed statements -/

/-- A sample transaction: an expense of 120. -/
def exTx : Transaction :=
  { id := 1, amount := 120, type := .expense, description := "rent",
    category := .Home, createdAt := "d" }

/-- Sample tasks. -/
def exTask5 : Task :=
  { id := 5, text := "a", completed := false, createdAt := "t",
    category := .Work, priority := .Medium }

/-- Second sample task. -/
def exTask6 : Task :=
  { id := 6, text := "b", completed := true, createdAt := "t",
    category := .Home, priority := .Low }

/-- A todo state whose selection points at the (unique) task with id 5. -/
def exTodoState : TodoState :=
  { tasks := [exTask5, exTask6], selectedTaskId := some 5 }

/-- A sample import-side store content. -/
def exImportState : ImportState :=
  { tasks := [.null], selectedTaskId := some 7 }

/-- The spec's malformed-import example: a `tasks` array whose single
element lacks the `priority` key. -/
def exBadImport : Json :=
  .obj [("tasks", .arr [.obj [("id", .num 1), ("text", .str "a"),
    ("completed", .bool false), ("category", .str "Work")]])]

/-- A well-formed import document whose single element has all five
required keys. -/
def exGoodImport : Json :=
  .obj [("tasks", .arr [.obj [("id", .num 1), ("text", .str "a"),
    ("completed", .bool false), ("category", .str "Work"),
    ("priority", .str "High")]])]

/-- The spec's analytics example: income 1000. -/
def exIncome : Transaction :=
  { id := 11, amount := 1000, type := .income, description := "salary",
    category := .Personal, createdAt := "d" }

/-- The spec's analytics example: expense 200 in Shopping. -/
def exShopping : Transaction :=
  { id := 12, amount := 200, type := .expense, description := "shoes",
    category := .Shopping, createdAt := "d" }

/-- The spec's analytics example: expense 50 in Work. -/
def exWork : Transaction :=
  { id := 13, amount := 50, type := .expense, description := "supplies",
    category := .Work, createdAt := "d" }

/-- The spec's analytics example list. -/
def exTransactions : List Transaction := [exIncome, exShopping, exWork]

/-- A sequence of two `add_task` attempts: one valid, one with
whitespace-only text (rejected by validation). -/
def exTodoSteps : List TodoAddStep :=
  [{ newTask := "a", category := .Work, priority := .Medium, now := 1,
     createdAt := "t" },
   { newTask := "  ", category := .Work, priority := .Low, now := 2,
     createdAt := "t" }]

/-- A valid `addTransaction` input: parseable positive amount, non-empty
description. -/
def exGoodInput : WalletAddInput :=
  { amountStr := "5", amountNum := some 5, description := "x",
    type := .income, category := .Work }

/-- An invalid `addTransaction` input: `parseFloat('')` is `NaN` and the
description is empty. -/
def exBadInput : WalletAddInput :=
  { amountStr := "", amountNum := none, description := "",
    type := .expense, category := .Work }

/-- A sequence of two `addTransaction` attempts: one valid, one rejected
by validation. -/
def exWalletSteps : List WalletAddStep :=
  [{ input := exGoodInput, now := 3, createdAt := "t" },
   { input := exBadInput, now := 4, createdAt := "t" }]

/-! ## Helper lemmas -/

/-- Pulling the accumulator out of the summing fold used by the wallet's
`reduce((sum, t) => sum + t.amount, 0)` calls. -/
theorem foldl_add_amount (l : List Transaction) (a : ℚ) :
    l.foldl (fun sum t => sum + t.amount) a
      = a + (l.map fun t => t.amount).sum := by
  induction l generalizing a with
  | nil => simp
  | cons h t ih => simp [ih, add_assoc]

/-- Summing the amounts of a filtered list equals summing an
if-then-else over the whole list. -/
theorem sum_map_filter (p : Transaction → Bool) (ts : List Transaction) :
    ((ts.filter p).map fun t => t.amount).sum
      = (ts.map fun t => if p t then t.amount else 0).sum := by
  induction ts with
  | nil => rfl
  | cons h t ih => by_cases hp : p h <;> simp [List.filter_cons, hp, ih]

/-- `totalIncome` as a sum over the whole list. -/
theorem totalIncome_eq_sum (ts : List Transaction) :
    totalIncome ts
      = (ts.map fun t => if t.type = .income then t.amount else 0).sum := by
  rw [totalIncome, foldl_add_amount, zero_add]
  simpa using sum_map_filter (fun t => decide (t.type = .income)) ts

/-- `totalExpenses` as a sum over the whole list. -/
theorem totalExpenses_eq_sum (ts : List Transaction) :
    totalExpenses ts
      = (ts.map fun t => if t.type = .expense then t.amount else 0).sum := by
  rw [totalExpenses, foldl_add_amount, zero_add]
  simpa using sum_map_filter (fun t => decide (t.type = .expense)) ts

/-- Filtering is idempotent (generic). -/
theorem filter_idem {α : Type} (p : α → Bool) (l : List α) :
    (l.filter p).filter p = l.filter p :=
  List.filter_eq_self.mpr fun _ ha => List.of_mem_filter ha

/-- The balance fold with an arbitrary starting accumulator. -/
theorem balance_shift (ts : List Transaction) (b : ℚ) :
    ts.foldl
        (fun balance t =>
          if t.type = .income then balance + t.amount
          else balance - t.amount) b
      = b + (ts.map fun t => if t.type = .income then t.amount else 0).sum
          - (ts.map fun t => if t.type = .expense then t.amount else 0).sum
      := by
  induction ts generalizing b with
  | nil => simp
  | cons h t ih =>
    cases htype : h.type <;> simp [htype, ih] <;> ring

/-! ## Claim theorems -/

/-- C8: with fixed predicates (search term, category filter, secondary
enum filter), both apps' filters are idempotent, and their output is a
subsequence of the input collection (in particular order is preserved and
the underlying collection is untouched). -/
theorem C8_filter_idempotent_subsequence (tasks : List Task)
    (transactions : List Transaction) (searchTerm : String)
    (fc : Option Category) (fp : Option Priority)
    (fty : Option TransactionType) :
    getFilteredTasks (getFilteredTasks tasks searchTerm fc fp) searchTerm
        fc fp
      = getFilteredTasks tasks searchTerm fc fp
    ∧ List.Sublist (getFilteredTasks tasks searchTerm fc fp) tasks
    ∧ getFilteredTransactions
        (getFilteredTransactions transactions searchTerm fc fty)
        searchTerm fc fty
      = getFilteredTransactions transactions searchTerm fc fty
    ∧ List.Sublist (getFilteredTransactions transactions searchTerm fc fty)
        transactions :=
  ⟨filter_idem _ tasks, List.filter_sublist tasks,
   filter_idem _ transactions, List.filter_sublist transactions⟩

/-- C9: the header balance (`getCurrentBalance`, one signed left fold)
agrees with `netSavings = totalIncome - totalExpenses` from
`getAnalyticsData`, for every transaction list. -/
theorem C9_balance_eq_netSavings (ts : List Transaction) :
    getCurrentBalance ts = netSavings ts := by
  rw [getCurrentBalance, balance_shift, netSavings, totalIncome_eq_sum,
    totalExpenses_eq_sum]
  ring

/-- `taskLE` is transitive. -/
theorem taskLE_trans : ∀ a b c : Task, taskLE a b → taskLE b c → taskLE a c := by
  intro a b c hab hbc
  simp only [taskLE, decide_eq_true_eq] at *
  omega

/-- `taskLE` is total. -/
theorem taskLE_total : ∀ a b : Task, taskLE a b || taskLE b a := by
  intro a b
  simp only [taskLE, Bool.or_eq_true, decide_eq_true_eq]
  omega

/-- A list of tasks of one common priority is pairwise `taskLE`. -/
theorem pairwise_taskLE_of_const_priority (p : Priority) :
    ∀ (c : List Task), (∀ t ∈ c, t.priority = p) →
      c.Pairwise fun a b => taskLE a b := by
  intro c
  induction c with
  | nil => intro _; exact List.Pairwise.nil
  | cons h t ih =>
    intro hall
    refine List.Pairwise.cons ?_ (ih fun b hb => hall b (by simp [hb]))
    intro b hb
    have h1 : h.priority = p := hall h (by simp)
    have h2 : b.priority = p := hall b (by simp [hb])
    simp [taskLE, h1, h2]

/-- Stability of `sortTasksByPriority`: the subsequence of tasks carrying
any fixed priority is exactly preserved. -/
theorem sortTasks_stable (l : List Task) (p : Priority) :
    (sortTasksByPriority l).filter (fun t => t.priority = p)
      = l.filter fun t => t.priority = p := by
  have hall : ∀ t ∈ l.filter (fun t => t.priority = p), t.priority = p := by
    intro t ht
    simpa using List.of_mem_filter ht
  have hpw := pairwise_taskLE_of_const_priority p _ hall
  have hsub : List.Sublist (l.filter fun t => t.priority = p)
      (List.mergeSort l taskLE) :=
    List.sublist_mergeSort taskLE_trans taskLE_total hpw (List.filter_sublist l)
  have hsub2 : List.Sublist (l.filter fun t => t.priority = p)
      ((List.mergeSort l taskLE).filter fun t => t.priority = p) := by
    have := hsub.filter (fun t => decide (t.priority = p))
    rwa [List.filter_eq_self.mpr (fun a ha => by simpa using hall a ha)] at this
  have hperm : List.Perm
      ((List.mergeSort l taskLE).filter fun t => t.priority = p)
      (l.filter fun t => t.priority = p) :=
    (List.mergeSort_perm l taskLE).filter _
  exact (hsub2.eq_of_length hperm.length_eq.symm).symm

/-- C6: `sortTasksByPriority` sorts ascending by the rank table
{Critical 0, High 1, Medium 2, Low 3}, permutes the input, is stable
(the subsequence of tasks at each fixed priority is unchanged), and is
idempotent. -/
theorem C6_sort_by_priority (l : List Task) :
    (sortTasksByPriority l).Pairwise
        (fun a b => getPriorityOrder a.priority ≤ getPriorityOrder b.priority)
    ∧ List.Perm (sortTasksByPriority l) l
    ∧ (∀ p : Priority,
        (sortTasksByPriority l).filter (fun t => t.priority = p)
          = l.filter fun t => t.priority = p)
    ∧ sortTasksByPriority (sortTasksByPriority l) = sortTasksByPriority l := by
  refine ⟨?_, List.mergeSort_perm l taskLE, sortTasks_stable l, ?_⟩
  · have := List.sorted_mergeSort taskLE_trans taskLE_total l
    exact this.imp fun h => by simpa [taskLE] using h
  · exact List.mergeSort_of_sorted
      (List.sorted_mergeSort taskLE_trans taskLE_total l)

/-- Removing the unique task carrying id `i` shrinks the list by one. -/
theorem filter_ne_id_length (i : Nat) (l : List Task)
    (hnd : (l.map fun t => t.id).Nodup) (hmem : i ∈ l.map fun t => t.id) :
    (l.filter fun t => t.id ≠ i).length + 1 = l.length := by
  induction l with
  | nil => simp at hmem
  | cons h t ih =>
    simp only [List.map_cons, List.nodup_cons, List.mem_cons] at hnd hmem
    by_cases hh : h.id = i
    · have hrest : ∀ x ∈ t, ¬x.id = i := by
        intro x hx hxi
        refine hnd.1 ?_
        rw [hh, ← hxi]
        exact List.mem_map_of_mem _ hx
      have hf : (t.filter fun x => x.id ≠ i) = t :=
        List.filter_eq_self.mpr fun a ha => by simpa using hrest a ha
      simp only [List.filter_cons, hh]
      rw [if_neg (by simp), hf]
      simp
    · have hm : i ∈ List.map (fun t => t.id) t := by
        rcases hmem with hm | hm
        · exact absurd hm.symm hh
        · exact hm
      have := ih hnd.2 hm
      simp only [List.filter_cons]
      rw [if_pos (by simpa using hh)]
      simp only [List.length_cons]
      omega

/-- C2: if the selection refers to a task in the collection (the store
invariant: ids unique, selection valid), `delete_task` shrinks the
collection by exactly one and clears the selection; with no selection it
changes nothing. -/
theorem C2_delete_task (s : TodoState) :
    (∀ i : Nat, s.selectedTaskId = some i →
        (s.tasks.map fun t => t.id).Nodup →
        i ∈ (s.tasks.map fun t => t.id) →
        (delete_task s).tasks.length + 1 = s.tasks.length
        ∧ (delete_task s).selectedTaskId = none)
    ∧ (s.selectedTaskId = none → delete_task s = s) := by
  constructor
  · intro i hsel hnd hmem
    refine ⟨?_, ?_⟩ <;> simp only [delete_task, hsel]
    · exact filter_ne_id_length i s.tasks hnd hmem
  · intro hsel
    simp [delete_task, hsel]

/-- C2 witness: on the concrete store `exTodoState` (two tasks with ids 5
and 6, selection on 5) all hypotheses hold and deletion shrinks the
collection from 2 to 1 and clears the selection. -/
theorem C2_delete_task_witness :
    ((exTodoState.tasks.map fun t => t.id).Nodup
      ∧ 5 ∈ (exTodoState.tasks.map fun t => t.id))
    ∧ (delete_task exTodoState).tasks.length + 1 = exTodoState.tasks.length
    ∧ (delete_task exTodoState).selectedTaskId = none :=
  ⟨⟨by decide, by decide⟩,
   (C2_delete_task exTodoState).1 5 rfl (by decide) (by decide)⟩

/-- C10: `mark_done` flips `completed` exactly on the tasks whose id is
the selected id, and changes nothing else: length, order, every other
field of every task, and the selection are all preserved; if the selected
id matches no task, or no task is selected, the state is unchanged. -/
theorem C10_mark_done_frame (s : TodoState) (i : Nat) :
    (s.selectedTaskId = some i →
        (mark_done s).tasks.length = s.tasks.length
        ∧ (mark_done s).selectedTaskId = s.selectedTaskId
        ∧ (∀ k : Nat,
            ((mark_done s).tasks[k]?.map fun t => t.id)
              = (s.tasks[k]?.map fun t => t.id)
            ∧ ((mark_done s).tasks[k]?.map fun t => t.text)
              = (s.tasks[k]?.map fun t => t.text)
            ∧ ((mark_done s).tasks[k]?.map fun t => t.createdAt)
              = (s.tasks[k]?.map fun t => t.createdAt)
            ∧ ((mark_done s).tasks[k]?.map fun t => t.category)
              = (s.tasks[k]?.map fun t => t.category)
            ∧ ((mark_done s).tasks[k]?.map fun t => t.priority)
              = (s.tasks[k]?.map fun t => t.priority)
            ∧ ((mark_done s).tasks[k]?.map fun t => t.completed)
              = (s.tasks[k]?.map fun t =>
                  if t.id = i then !t.completed else t.completed))
        ∧ ((∀ t ∈ s.tasks, t.id ≠ i) → mark_done s = s))
    ∧ (s.selectedTaskId = none → mark_done s = s) := by
  constructor
  · intro hsel
    have hmd : (mark_done s).tasks = s.tasks.map fun task =>
        if task.id = i then { task with completed := !task.completed }
        else task := by
      simp [mark_done, hsel]
    have hsel2 : (mark_done s).selectedTaskId = s.selectedTaskId := by
      simp [mark_done, hsel]
    refine ⟨by rw [hmd]; simp, hsel2, ?_, ?_⟩
    · intro k
      rw [hmd]
      cases hk : s.tasks[k]? with
      | none => simp [List.getElem?_map, hk]
      | some t =>
          by_cases ht : t.id = i <;>
            simp [List.getElem?_map, hk, ht]
    · intro hnone
      have : (s.tasks.map fun task =>
          if task.id = i then { task with completed := !task.completed }
          else task) = s.tasks := by
        rw [List.map_congr_left (g := id) ?_, List.map_id]
        intro a ha
        simp [hnone a ha]
      cases s with
      | mk tasks sel =>
          simp only [mark_done] at *
          simp [hsel, this]
  · intro hsel
    simp [mark_done, hsel]

/-- C10 witness: on `exTodoState` (selection on id 5) `mark_done` keeps
the length and the selection. -/
theorem C10_mark_done_frame_witness :
    (mark_done exTodoState).tasks.length = exTodoState.tasks.length
    ∧ (mark_done exTodoState).selectedTaskId = exTodoState.selectedTaskId :=
  ⟨((C10_mark_done_frame exTodoState 5).1 rfl).1,
   ((C10_mark_done_frame exTodoState 5).1 rfl).2.1⟩

/-- `mathMax` coincides with the lattice `max` on `ℚ`. -/
theorem mathMax_eq_max (a b : ℚ) : mathMax a b = max a b := by
  rw [mathMax, max_def]

/-- Folding `mathMax` over a list yields an upper bound that is attained. -/
theorem foldl_mathMax_spec (rest : List ℚ) (a : ℚ) :
    a ≤ rest.foldl mathMax a
    ∧ (∀ x ∈ rest, x ≤ rest.foldl mathMax a)
    ∧ rest.foldl mathMax a ∈ a :: rest := by
  induction rest generalizing a with
  | nil => simp
  | cons b rest ih =>
    obtain ⟨h1, h2, h3⟩ := ih (mathMax a b)
    rw [List.foldl_cons]
    refine ⟨le_trans (by rw [mathMax_eq_max]; exact le_max_left a b) h1,
      ?_, ?_⟩
    · intro x hx
      rcases List.mem_cons.mp hx with rfl | hx
      · exact le_trans (by rw [mathMax_eq_max]; exact le_max_right a x) h1
      · exact h2 x hx
    · rcases List.mem_cons.mp h3 with h3 | h3
      · rw [mathMax_eq_max] at h3 ⊢
        rcases max_choice a b with hm | hm <;> rw [hm] at h3 ⊢ <;> simp [h3]
      · simp [h3]

/-- Looking a key up after the in-place update `acc.map (if key matches,
add amt)`. -/
theorem lookupCat_map_update (c cp : Category) (amt : ℚ)
    (acc : List (Category × ℚ)) :
    lookupCat c (acc.map fun p =>
        if p.1 = cp then (p.1, p.2 + amt) else p)
      = (lookupCat c acc).map fun v => if c = cp then v + amt else v := by
  induction acc with
  | nil => rfl
  | cons p rest ih =>
    by_cases h2 : p.1 = c
    · by_cases h1 : p.1 = cp
      · have hc : c = cp := h2.symm.trans h1
        simp [lookupCat, h1, h2, hc]
      · have hc : ¬c = cp := fun h => h1 (h2.trans h)
        simp [lookupCat, h1, h2, hc]
    · by_cases h1 : p.1 = cp
      · have hc : ¬cp = c := fun h => h2 (h1.trans h)
        simp [lookupCat, h1, h2, hc, ih]
      · simp [lookupCat, h1, h2, ih]

/-- Looking a key up after appending a single binding. -/
theorem lookupCat_append (c k : Category) (v : ℚ)
    (acc : List (Category × ℚ)) :
    lookupCat c (acc ++ [(k, v)])
      = match lookupCat c acc with
        | some x => some x
        | none => if k = c then some v else none := by
  induction acc with
  | nil => simp [lookupCat]
  | cons p rest ih =>
    by_cases h : p.1 = c <;> simp [lookupCat, h, ih]

/-- A key occurs in the association list iff its lookup succeeds. -/
theorem any_fst_iff_lookupCat (c : Category) (acc : List (Category × ℚ)) :
    (acc.any fun p => p.1 = c) = true ↔ ∃ v, lookupCat c acc = some v := by
  induction acc with
  | nil => simp [lookupCat]
  | cons p rest ih =>
    by_cases h : p.1 = c <;> simp [lookupCat, h, ih]

/-- Invariant of the `getCategoryDistribution` fold: after processing `l`,
the entry of category `c` holds the prior entry (if any) plus the summed
amounts of `l`'s category-`c` transactions. -/
theorem foldl_accStep_lookup (l : List Transaction)
    (acc : List (Category × ℚ)) (c : Category) :
    lookupCat c (l.foldl accStep acc)
      = match lookupCat c acc with
        | some v =>
            some (v + ((l.filter fun t => t.category = c).map
              fun t => t.amount).sum)
        | none =>
            if l.any (fun t => t.category = c) then
              some (((l.filter fun t => t.category = c).map
                fun t => t.amount).sum)
            else none := by
  induction l generalizing acc with
  | nil =>
    cases hl : lookupCat c acc <;> simp [hl]
  | cons t rest ih =>
    rw [List.foldl_cons, ih]
    by_cases hct : t.category = c
    · cases hl : lookupCat c acc with
      | some v =>
          have hany : (acc.any fun p => p.1 = t.category) = true := by
            rw [hct]
            exact (any_fst_iff_lookupCat c acc).mpr ⟨v, hl⟩
          have hstep : lookupCat c (accStep acc t) = some (v + t.amount) := by
            rw [accStep, if_pos (by simpa using hany), lookupCat_map_update,
              hl]
            simp [hct]
          rw [hstep]
          simp [List.filter_cons, List.any_cons, hct, hl, add_assoc]
      | none =>
          have hany : ¬(acc.any fun p => p.1 = t.category) = true := by
            rw [hct]
            intro h
            obtain ⟨v, hv⟩ := (any_fst_iff_lookupCat c acc).mp h
            simp [hv] at hl
          have hstep : lookupCat c (accStep acc t) = some t.amount := by
            rw [accStep, if_neg (by simpa using hany), lookupCat_append, hl]
            simp [hct]
          rw [hstep]
          simp [List.filter_cons, List.any_cons, hct, hl]
    · have hstep : lookupCat c (accStep acc t) = lookupCat c acc := by
        rw [accStep]
        by_cases hany : (acc.any fun p => p.1 = t.category) = true
        · rw [if_pos (by simpa using hany), lookupCat_map_update]
          have hc2 : ¬c = t.category := fun hc => hct hc.symm
          cases hl : lookupCat c acc <;> simp [hc2]
        · rw [if_neg (by simpa using hany), lookupCat_append]
          cases hl : lookupCat c acc <;> simp [hct]
      rw [hstep]
      cases hl : lookupCat c acc <;>
        simp [List.filter_cons, List.any_cons, hct, hl]

/-- C7: the wallet analytics: `totalIncome` and `totalExpenses` are the
signed sums over the list, `netSavings` their difference,
`largestExpense` an attained upper bound of the expense amounts (0 with
no expenses), and the category distribution holds, for each category with
at least one expense, exactly the summed expense amount of that
category. -/
theorem C7_analytics (ts : List Transaction) :
    totalIncome ts
      = (ts.map fun t => if t.type = .income then t.amount else 0).sum
    ∧ totalExpenses ts
      = (ts.map fun t => if t.type = .expense then t.amount else 0).sum
    ∧ netSavings ts = totalIncome ts - totalExpenses ts
    ∧ (∀ t ∈ ts, t.type = .expense → t.amount ≤ largestExpense ts)
    ∧ ((ts.filter fun t => t.type = .expense) = [] → largestExpense ts = 0)
    ∧ ((ts.filter fun t => t.type = .expense) ≠ [] →
        largestExpense ts
          ∈ ((ts.filter fun t => t.type = .expense).map fun t => t.amount))
    ∧ (∀ c : Category,
        lookupCat c (getCategoryDistribution ts)
          = if ((ts.filter fun t => t.type = .expense).filter
                fun t => t.category = c) = [] then none
            else some ((((ts.filter fun t => t.type = .expense).filter
                fun t => t.category = c).map fun t => t.amount).sum)) := by
  refine ⟨totalIncome_eq_sum ts, totalExpenses_eq_sum ts, rfl, ?_, ?_, ?_, ?_⟩
  · intro t ht hexp
    have hm : t.amount
        ∈ ((ts.filter fun t => t.type = .expense).map fun t => t.amount) :=
      List.mem_map_of_mem _ (List.mem_filter.mpr ⟨ht, by simp [hexp]⟩)
    simp only [largestExpense]
    cases hmap : ((ts.filter fun t => t.type = .expense).map
        fun t => t.amount) with
    | nil => rw [hmap] at hm; simp at hm
    | cons a rest =>
        rw [hmap] at hm
        obtain ⟨h1, h2, _⟩ := foldl_mathMax_spec rest a
        rcases List.mem_cons.mp hm with rfl | hm2
        · exact h1
        · exact h2 _ hm2
  · intro h
    simp [largestExpense, h]
  · intro h
    simp only [largestExpense]
    cases hmap : ((ts.filter fun t => t.type = .expense).map
        fun t => t.amount) with
    | nil =>
        exact absurd (List.map_eq_nil_iff.mp hmap) h
    | cons a rest =>
        simpa using (foldl_mathMax_spec rest a).2.2
  · intro c
    rw [getCategoryDistribution, foldl_accStep_lookup]
    show (if ((ts.filter fun t => t.type = .expense).any
        fun t => t.category = c) = true then _ else _) = _
    by_cases hemp : ((ts.filter fun t => t.type = .expense).filter
        fun t => t.category = c) = []
    · have hany : ¬((ts.filter fun t => t.type = .expense).any
          fun t => t.category = c) = true := by
        rw [List.any_eq_true]
        rintro ⟨x, hx, hcx⟩
        have hxf : x ∈ (ts.filter fun t => t.type = .expense).filter
            (fun t => t.category = c) :=
          List.mem_filter.mpr ⟨hx, hcx⟩
        rw [hemp] at hxf
        simp at hxf
      rw [if_neg hany, if_pos hemp]
    · have hx := List.exists_mem_of_ne_nil _ hemp
      obtain ⟨x, hxf⟩ := hx
      obtain ⟨hx1, hx2⟩ := List.mem_filter.mp hxf
      have hany : ((ts.filter fun t => t.type = .expense).any
          fun t => t.category = c) = true :=
        List.any_eq_true.mpr ⟨x, hx1, hx2⟩
      rw [if_pos hany, if_neg hemp]

/-- C7 witness: on the spec's example list the expense 200 is indeed
bounded by `largestExpense`. -/
theorem C7_analytics_witness :
    (exShopping ∈ exTransactions ∧ exShopping.type = .expense)
    ∧ exShopping.amount ≤ largestExpense exTransactions :=
  ⟨⟨by simp [exTransactions], rfl⟩,
   (C7_analytics exTransactions).2.2.2.1 exShopping
     (by simp [exTransactions]) rfl⟩

/-- The ids after a sequence of `add_task` attempts: the prior ids
followed by the `Date.now()` stamps of exactly the validated attempts. -/
theorem runTodoAdds_ids (s : TodoState) (steps : List TodoAddStep) :
    ((runTodoAdds s steps).tasks.map fun t => t.id)
      = (s.tasks.map fun t => t.id)
        ++ ((steps.filter todoStepValid).map fun st => st.now) := by
  induction steps generalizing s with
  | nil => simp [runTodoAdds]
  | cons st rest ih =>
    have hstep : runTodoAdds s (st :: rest)
        = runTodoAdds
            (add_task s st.newTask st.category st.priority st.now
              st.createdAt) rest := rfl
    rw [hstep, ih]
    by_cases hv : st.newTask.trim ≠ ""
    · rw [add_task, if_pos hv]
      simp [List.filter_cons, todoStepValid, hv]
    · rw [add_task, if_neg hv]
      simp [List.filter_cons, todoStepValid, hv]

/-- The ids after a sequence of `addTransaction` attempts. -/
theorem runWalletAdds_ids (s : WalletState) (steps : List WalletAddStep) :
    ((runWalletAdds s steps).transactions.map fun t => t.id)
      = (s.transactions.map fun t => t.id)
        ++ ((steps.filter fun st => walletValid st.input).map
            fun st => st.now) := by
  induction steps generalizing s with
  | nil => simp [runWalletAdds]
  | cons st rest ih =>
    have hstep : runWalletAdds s (st :: rest)
        = runWalletAdds (addTransaction s st.input st.now st.createdAt)
            rest := rfl
    rw [hstep, ih]
    by_cases hv : walletValid st.input
    · rw [addTransaction, if_pos hv]
      simp [List.filter_cons, hv]
    · rw [addTransaction, if_neg hv]
      simp [List.filter_cons, hv]

/-- C3: starting from the empty store, any sequence of add attempts
leaves exactly one record per attempt that passed validation, and —
provided the `Date.now()` clock values of the attempts are pairwise
distinct — the resulting record ids are pairwise distinct.  Both for the
todo store and for the wallet store. -/
theorem C3_add_sequences (todoSteps : List TodoAddStep)
    (walletSteps : List WalletAddStep) :
    (runTodoAdds { tasks := [], selectedTaskId := none }
        todoSteps).tasks.length
      = (todoSteps.filter todoStepValid).length
    ∧ ((todoSteps.map fun st => st.now).Nodup →
        ((runTodoAdds { tasks := [], selectedTaskId := none }
            todoSteps).tasks.map fun t => t.id).Nodup)
    ∧ (runWalletAdds { transactions := [], selectedTransactionId := none }
        walletSteps).transactions.length
      = (walletSteps.filter fun st => walletValid st.input).length
    ∧ ((walletSteps.map fun st => st.now).Nodup →
        ((runWalletAdds
            { transactions := [], selectedTransactionId := none }
            walletSteps).transactions.map fun t => t.id).Nodup) := by
  have hids := runTodoAdds_ids { tasks := [], selectedTaskId := none }
    todoSteps
  have wids := runWalletAdds_ids
    { transactions := [], selectedTransactionId := none } walletSteps
  simp only [List.map_nil, List.nil_append] at hids wids
  refine ⟨?_, ?_, ?_, ?_⟩
  · have := congrArg List.length hids
    simpa using this
  · intro hnd
    rw [hids]
    exact hnd.sublist ((List.filter_sublist todoSteps).map fun st => st.now)
  · have := congrArg List.length wids
    simpa using this
  · intro hnd
    rw [wids]
    exact hnd.sublist
      ((List.filter_sublist walletSteps).map fun st => st.now)

/-- C3 witness: on the concrete attempt sequences (a valid and an invalid
attempt each) the clocks are distinct, the lengths match the validated
counts, and the ids are pairwise distinct. -/
theorem C3_add_sequences_witness :
    ((exTodoSteps.map fun st => st.now).Nodup
      ∧ (exWalletSteps.map fun st => st.now).Nodup)
    ∧ (runTodoAdds { tasks := [], selectedTaskId := none }
        exTodoSteps).tasks.length
      = (exTodoSteps.filter todoStepValid).length
    ∧ ((runTodoAdds { tasks := [], selectedTaskId := none }
        exTodoSteps).tasks.map fun t => t.id).Nodup
    ∧ ((runWalletAdds { transactions := [], selectedTransactionId := none }
        exWalletSteps).transactions.map fun t => t.id).Nodup :=
  ⟨⟨by decide, by decide⟩,
   (C3_add_sequences exTodoSteps exWalletSteps).1,
   (C3_add_sequences exTodoSteps exWalletSteps).2.1 (by decide),
   (C3_add_sequences exTodoSteps exWalletSteps).2.2.2 (by decide)⟩

/-- C4: `handleFileImport` rejects (error surfaced, store untouched) on a
JSON parse failure, on a missing or non-array `tasks` field, and on any
element missing one of the keys id, text, completed, category, priority;
when all checks pass it replaces the collection wholesale by the imported
array and clears the selection. -/
theorem C4_import_validation (s : ImportState) (content : Option Json) :
    (content = none → handleFileImport s content = (s, true))
    ∧ (∀ data, content = some data →
        (∀ ts, data.getField "tasks" ≠ some (.arr ts)) →
        handleFileImport s content = (s, true))
    ∧ (∀ data ts, content = some data →
        data.getField "tasks" = some (.arr ts) →
        ¬ts.all validTaskJson = true →
        handleFileImport s content = (s, true))
    ∧ (∀ data ts, content = some data →
        data.getField "tasks" = some (.arr ts) →
        ts.all validTaskJson = true →
        handleFileImport s content
          = ({ tasks := ts, selectedTaskId := none }, false)) := by
  refine ⟨?_, ?_, ?_, ?_⟩
  · rintro rfl
    rfl
  · rintro data rfl hne
    simp only [handleFileImport]
  · rintro data ts rfl hf hall
    simp [handleFileImport, hf, hall]
  · rintro data ts rfl hf hall
    simp [handleFileImport, hf, hall]

/-- C4 witness: the spec's example (an element missing `priority`) is
rejected with the prior collection untouched, while a fully-keyed
document is accepted. -/
theorem C4_import_validation_witness :
    handleFileImport exImportState (some exBadImport)
      = (exImportState, true)
    ∧ (handleFileImport exImportState (some exGoodImport)).2 = false :=
  ⟨(C4_import_validation exImportState (some exBadImport)).2.2.1
      exBadImport
      [.obj [("id", .num 1), ("text", .str "a"),
        ("completed", .bool false), ("category", .str "Work")]]
      rfl rfl (by decide),
   by
     rw [(C4_import_validation exImportState (some exGoodImport)).2.2.2
       exGoodImport
       [.obj [("id", .num 1), ("text", .str "a"),
         ("completed", .bool false), ("category", .str "Work"),
         ("priority", .str "High")]]
       rfl rfl (by decide)]⟩

/-- Every serialized task carries all five required keys. -/
theorem validTaskJson_taskToJson (t : Task) :
    validTaskJson (taskToJson t) = true := by
  simp [validTaskJson, taskToJson, Json.hasKey]

/-- A serialized `Nat` id reads back as itself. -/
theorem numToNat_natCast (n : Nat) : numToNat (n : ℚ) = some n := by
  simp [numToNat, Rat.num_natCast, Rat.den_natCast, Int.toNat_natCast]

/-- Category names decode back. -/
theorem stringToCategory_roundtrip (c : Category) :
    stringToCategory (categoryToString c) = some c := by
  cases c <;> rfl

/-- Priority names decode back. -/
theorem stringToPriority_roundtrip (p : Priority) :
    stringToPriority (priorityToString p) = some p := by
  cases p <;> rfl

/-- Reading the serialized task's fields back recovers the task exactly. -/
theorem jsonToTask_taskToJson (t : Task) :
    jsonToTask (taskToJson t) = some t := by
  have h1 : (taskToJson t).getField "id" = some (.num (t.id : ℚ)) := rfl
  have h2 : (taskToJson t).getField "text" = some (.str t.text) := rfl
  have h3 : (taskToJson t).getField "completed"
      = some (.bool t.completed) := rfl
  have h4 : (taskToJson t).getField "createdAt"
      = some (.str t.createdAt) := rfl
  have h5 : (taskToJson t).getField "category"
      = some (.str (categoryToString t.category)) := rfl
  have h6 : (taskToJson t).getField "priority"
      = some (.str (priorityToString t.priority)) := rfl
  rw [jsonToTask, h1, h2, h3, h4, h5, h6]
  simp [numToNat_natCast, stringToCategory_roundtrip,
    stringToPriority_roundtrip]

/-- C5: importing the JSON produced by export replaces the collection
wholesale with the exported `tasks` array, clears the selection, surfaces
no error, and every imported element reads back field-for-field as the
original task (the export wraps the collection with `exportDate` and
`version` and the import consumes exactly the `tasks` array). -/
theorem C5_export_import_roundtrip (s : ImportState) (S : List Task)
    (d : String) :
    handleFileImport s (some (exportJson S d))
      = ({ tasks := S.map taskToJson, selectedTaskId := none }, false)
    ∧ (S.map taskToJson).map jsonToTask = S.map some := by
  constructor
  · have hfield : (exportJson S d).getField "tasks"
        = some (.arr (S.map taskToJson)) := rfl
    have hall : (S.map taskToJson).all validTaskJson = true := by
      rw [List.all_eq_true]
      intro x hx
      obtain ⟨t, _, rfl⟩ := List.mem_map.mp hx
      exact validTaskJson_taskToJson t
    simp [handleFileImport, hfield, hall]
  · rw [List.map_map]
    exact List.map_congr_left fun t _ => jsonToTask_taskToJson t

/-- C1 (budget view, failing input budget = 100, expenses sum = 120):
`getBudgetData` does report `remaining = max(0, B-E) = 0` and the clamped
`percentageSpent = 100`, as the claim states; but the budget notice
computes its exceeded-by percentage from the already-clamped
`percentageSpent`, so it renders `100 - 100 = 0`%, not the claimed
unclamped-minus-100 = 20%.  The unclamped value `spent/budget*100 - 100`
is 20, and the rendered value differs from it. -/
theorem C1_budget_exceeded_by_bug :
    (getBudgetData 100 [exTx]).remaining = 0
    ∧ (getBudgetData 100 [exTx]).percentageSpent = 100
    ∧ (getBudgetData 100 [exTx]).spent
        / (getBudgetData 100 [exTx]).budget * 100 - 100 = 20
    ∧ budgetNoticeExceededBy 100 [exTx] = some 0
    ∧ budgetNoticeExceededBy 100 [exTx] ≠ some 20 := by
  have hspent : ((([exTx].filter fun t => t.type = .expense)).foldl
      (fun sum t => sum + t.amount) 0) = 120 := by
    norm_num [exTx, List.filter]
  have hb : getBudgetData 100 [exTx]
      = { budget := 100, spent := 120, remaining := 0,
          percentageSpent := 100 } := by
    rw [getBudgetData]
    simp only [hspent]
    norm_num [mathMax, mathMin]
  refine ⟨by rw [hb], by rw [hb], by rw [hb]; norm_num, ?_, ?_⟩
  · rw [budgetNoticeExceededBy, hb]
    norm_num
  · rw [budgetNoticeExceededBy, hb]
    norm_num

end SeLab
